import Mathlib

/-! Verification of the valuation-and-signal engine of
`graphing_returns_with_bands.py`: portfolio valuation with and without
periodic rebalancing (`calculate_portfolio_value_no_rebalancing`,
`calculate_portfolio_value_with_rebalancing`), EWMA/Bollinger band
estimation (`add_ewma_bollinger_bands`, which calls pandas
`ewm(halflife=h).mean()` with its default `adjust=True` weighting and
`rolling(window=h).std()` with its default `ddof=1` and
`min_periods=window`), and the mean-reversion trade tracker
`track_trades`.

Modelling conventions: floating-point arithmetic is modelled by exact
rationals; a pandas `NaN` cell is modelled by an explicit sentinel
(`Option`/`Cell.blank`), and a comparison against `NaN` is false, as in
IEEE floats.  The decay factor `d = 2 ^ (-1/h)` that pandas derives from
the halflife (the unique `0 < d < 1` with `d ^ h = 1/2`) and the square
root taken by the rolling standard deviation are irrational, so they are
carried as parameters (`d`, `sf`) and every theorem quantifies over
them; no claim depends on their numeric values beyond the algebraic
relations proved here. -/

abbrev Ticker := String

/-- A pandas DataFrame of closing prices: the frame-level column list
and the rows, each row giving a price per column.  A pandas row always
carries every frame column, so a row is modelled as a total function;
`cols` is what `stock in df.columns` tests and what a row lookup
`prices[stock]` raises `KeyError` against. -/
structure Df where
  cols : List Ticker
  rows : List (Ticker → ℚ)

/-- The dict comprehension filter shared by both valuators:
`{stock: ... for stock, weight in weights.items() if stock in df.columns}`. -/
def retained (df : Df) (weights : List (Ticker × ℚ)) : List (Ticker × ℚ) :=
  weights.filter (fun p => df.cols.contains p.1)

/-- `calculate_portfolio_value_no_rebalancing` (lines 20-39): per date,
`sum(prices[stock] * (initial_investment_per_stock[stock] / df[stock].iloc[0]))`
over the retained instruments, where
`initial_investment_per_stock[stock] = initial_investment * weight`. -/
def calculate_portfolio_value_no_rebalancing (df : Df) (weights : List (Ticker × ℚ))
    (init : ℚ) : List ℚ :=
  df.rows.map (fun r =>
    ((retained df weights).map (fun p => r p.1 * (init * p.2 / df.rows.headI p.1))).sum)

/-- The initial share dict of the rebalancing valuator (line 59):
`shares = {stock: initial_investment_per_stock[stock] / df[stock].iloc[0]}`. -/
def initialShares (df : Df) (weights : List (Ticker × ℚ)) (init : ℚ) : List (Ticker × ℚ) :=
  (retained df weights).map (fun p => (p.1, init * p.2 / df.rows.headI p.1))

/-- `sum(prices[stock] * shares[stock] for stock in shares)` (line 63). -/
def valueOf (shares : List (Ticker × ℚ)) (r : Ticker → ℚ) : ℚ :=
  (shares.map (fun p => r p.1 * p.2)).sum

/-- The rebalance-time share recomputation (lines 69-70):
`new_investment_per_stock = {stock: portfolio_value * weight for stock, weight in weights.items()}`
followed by `shares = {stock: new_investment_per_stock[stock] / prices[stock]}`.
Note it runs over the whole weight dict, not the retained subset. -/
def rebalShares (weights : List (Ticker × ℚ)) (v : ℚ) (r : Ticker → ℚ) : List (Ticker × ℚ) :=
  weights.map (fun p => (p.1, v * p.2 / r p.1))

/-- The loop of `calculate_portfolio_value_with_rebalancing` (lines 61-71):
value each enumerated row from the active share dict, append, then - when
`rebalance_frequency > 0 and i % rebalance_frequency == 0 and i != 0` -
recompute the shares from all weights.  A weight whose ticker is not a
frame column makes `prices[stock]` raise `KeyError`, modelled by `none`. -/
def rebalGo (cols : List Ticker) (weights : List (Ticker × ℚ)) (freq : ℕ) :
    ℕ → List (Ticker → ℚ) → List (Ticker × ℚ) → Option (List ℚ)
  | _, [], _ => some []
  | i, r :: rest, shares =>
    let v := valueOf shares r
    if 0 < freq ∧ i % freq = 0 ∧ i ≠ 0 then
      if weights.all (fun p => cols.contains p.1) then
        (rebalGo cols weights freq (i + 1) rest (rebalShares weights v r)).map
          (fun vs => v :: vs)
      else none
    else (rebalGo cols weights freq (i + 1) rest shares).map (fun vs => v :: vs)

/-- `calculate_portfolio_value_with_rebalancing` (lines 42-72). -/
def calculate_portfolio_value_with_rebalancing (df : Df) (weights : List (Ticker × ℚ))
    (init : ℚ) (freq : ℕ) : Option (List ℚ) :=
  rebalGo df.cols weights freq 0 df.rows (initialShares df weights init)

/-- The running numerator/denominator recursion implementing pandas
`ewm(halflife=h, adjust=True).mean()`: with decay `d`, over input
`x_0, x_1, ...`, `num_t = x_t + d * num_(t-1)`, `den_t = 1 + d * den_(t-1)`,
output `num_t / den_t`, which is the weighted mean
`(sum_i d^i x_(t-i)) / (sum_i d^i)`. -/
def ewmGo (d : ℚ) : ℚ → ℚ → List ℚ → List ℚ
  | _, _, [] => []
  | num, den, x :: rest =>
    (x + d * num) / (1 + d * den) :: ewmGo d (x + d * num) (1 + d * den) rest

/-- `df['portfolio_value'].ewm(halflife=halflife_days).mean()` (line 82),
with the pandas-internal decay `d = 2 ^ (-1/halflife_days)` as a parameter. -/
def ewmAdjusted (d : ℚ) (xs : List ℚ) : List ℚ := ewmGo d 0 0 xs

/-- The trailing observation window of length `min (t+1) hl` ending at
index `t`, as used by `rolling(window=hl)`. -/
def windowAt (hl : ℕ) (xs : List ℚ) (t : ℕ) : List ℚ := (xs.take (t + 1)).drop (t + 1 - hl)

/-- The sample variance (pandas `ddof = 1`) of a window:
`sum (x - mean)^2 / (n - 1)` with real (not truncated) `n - 1`. -/
def sampleVar (w : List ℚ) : ℚ :=
  ((w.map (fun x => (x - w.sum / (w.length : ℚ)) ^ 2)).sum) / ((w.length : ℚ) - 1)

/-- `df['portfolio_value'].rolling(window=halflife_days).std()` (line 85).
With `min_periods = window` (the pandas default) the first `hl - 1`
entries are `NaN`, and with `ddof = 1` a full window still yields `NaN`
unless `2 ≤ hl` (zero degrees of freedom for `hl = 1`).  `sf` stands for
the real square root, applied to the sample variance. -/
def rollingStd (sf : ℚ → ℚ) (hl : ℕ) (xs : List ℚ) : List (Option ℚ) :=
  (List.range xs.length).map (fun t =>
    if 2 ≤ hl ∧ hl - 1 ≤ t then some (sf (sampleVar (windowAt hl xs t))) else none)

/-- `df['bollinger_upper'] = df['ewma'] + (2 * df['std_dev'])` (line 86);
`NaN` (here `none`) propagates through the arithmetic. -/
def bollingerUpper (e : List ℚ) (std : List (Option ℚ)) : List (Option ℚ) :=
  (e.zip std).map (fun p => p.2.map (fun s => p.1 + 2 * s))

/-- `df['bollinger_lower'] = df['ewma'] - (2 * df['std_dev'])` (line 87). -/
def bollingerLower (e : List ℚ) (std : List (Option ℚ)) : List (Option ℚ) :=
  (e.zip std).map (fun p => p.2.map (fun s => p.1 - 2 * s))

/-- One cell of a pandas frame: a number, a string (the `position`
column), or blank (`NaN` / `None`). -/
inductive Cell where
  | num (x : ℚ)
  | str (s : String)
  | blank
deriving DecidableEq

/-- A pandas DataFrame as an ordered association list of named columns. -/
abbrev Frame := List (String × List Cell)

/-- Embeds an optional number as a frame cell (`none` becomes `NaN`). -/
def ofOpt (o : Option ℚ) : Cell :=
  match o with
  | some x => Cell.num x
  | none => Cell.blank

/-- `add_ewma_bollinger_bands` (lines 75-90): build the frame with the
portfolio values, the EWMA, the rolling standard deviation and the two
bands, then `df.drop(columns=['std_dev'])` before returning. -/
def add_ewma_bollinger_bands (d : ℚ) (sf : ℚ → ℚ) (hl : ℕ) (pv : List ℚ) : Frame :=
  ([(("portfolio_value"), pv.map Cell.num),
    (("ewma"), (ewmAdjusted d pv).map Cell.num),
    (("std_dev"), (rollingStd sf hl pv).map ofOpt),
    (("bollinger_upper"), (bollingerUpper (ewmAdjusted d pv) (rollingStd sf hl pv)).map ofOpt),
    (("bollinger_lower"), (bollingerLower (ewmAdjusted d pv) (rollingStd sf hl pv)).map ofOpt)]
    : Frame).filter (fun c => c.1 ≠ ("std_dev"))

/-- One row of the trade log, the tuple
`(trade_date, trade_price, trade_type, total_trade_pnl)` appended by
`track_trades`; dates are modelled by row indices. -/
structure TradeRec where
  date : ℕ
  price : ℚ
  ttype : String
  pnl : ℚ
deriving DecidableEq

/-- The mutable simulation state of `track_trades`: `current_position`
(a Python string or `None`), `entry_price`, `units_traded`,
`realized_balance`, `trades_tally`, and the most recent value of the
`total_trade_pnl` column (what the next row carries forward). -/
structure TState where
  pos : Option String
  entryPrice : ℚ
  unitsTraded : ℚ
  realizedBalance : ℚ
  tally : ℕ
  tot : ℚ
deriving DecidableEq

/-- `price > upper` where `upper` may be `NaN`: a `NaN` comparison is false. -/
def gtOptB (p : ℚ) (u : Option ℚ) : Bool :=
  match u with
  | none => false
  | some v => decide (v < p)

/-- `price < lower` where `lower` may be `NaN`. -/
def ltOptB (p : ℚ) (l : Option ℚ) : Bool :=
  match l with
  | none => false
  | some v => decide (p < v)

/-- One iteration of the `track_trades` loop (lines 280-345) on the row
`(price, ewma, upper, lower)`: carry the previous `total_trade_pnl`
forward, compute the unrealized PnL of the open position, then run the
entry/exit `if/elif` chain.  Returns the trade-log record for the row
(the appended `'neither'` tuple, overwritten in place by the branch that
fires), the value written to the `position` column (set only on
entries), and the updated state. -/
def tradeStep (i : ℕ) (row : ℚ × ℚ × Option ℚ × Option ℚ) (st : TState) :
    TradeRec × Option String × TState :=
  let price := row.1
  let ew := row.2.1
  let up := row.2.2.1
  let lo := row.2.2.2
  let unreal : ℚ :=
    if st.pos = some ("short") then st.realizedBalance * (st.entryPrice - price) / st.entryPrice
    else if st.pos = some ("long") then st.realizedBalance * (price - st.entryPrice) / st.entryPrice
    else 0
  if st.pos = none ∧ gtOptB price up then
    (⟨i, price, ("short_entry"), st.tot + unreal⟩, some ("short"),
      ⟨some ("short"), price, st.realizedBalance / price, st.realizedBalance, st.tally, st.tot⟩)
  else if st.pos = none ∧ ltOptB price lo then
    (⟨i, price, ("long_entry"), st.tot + unreal⟩, some ("long"),
      ⟨some ("long"), price, st.realizedBalance / price, st.realizedBalance, st.tally, st.tot⟩)
  else if st.pos = some ("short") ∧ price < ew then
    (⟨i, price, ("short_exit"), st.tot + st.unitsTraded * (st.entryPrice - price)⟩, none,
      ⟨none, st.entryPrice, st.unitsTraded,
        st.realizedBalance + st.unitsTraded * (st.entryPrice - price), st.tally + 1,
        st.tot + st.unitsTraded * (st.entryPrice - price)⟩)
  else if st.pos = some ("long") ∧ ew < price then
    (⟨i, price, ("long_exit"), st.tot + st.unitsTraded * (price - st.entryPrice)⟩, none,
      ⟨none, st.entryPrice, st.unitsTraded,
        st.realizedBalance + st.unitsTraded * (price - st.entryPrice), st.tally + 1,
        st.tot + st.unitsTraded * (price - st.entryPrice)⟩)
  else (⟨i, price, ("neither"), st.tot + unreal⟩, none, st)

/-- The accumulated effect of the `track_trades` loop: the appended
log records, the `total_trade_pnl` and `position` column entries written
for the processed rows, and the final state. -/
structure TrackAcc where
  logs : List TradeRec
  tots : List ℚ
  posCol : List (Option String)
  final : TState
deriving DecidableEq

/-- The `for i in range(1, len(df))` scan of `track_trades`. -/
def trackGo : ℕ → List (ℚ × ℚ × Option ℚ × Option ℚ) → TState → TrackAcc
  | _, [], st => ⟨[], [], [], st⟩
  | i, row :: rest, st =>
    let s := tradeStep i row st
    let acc := trackGo (i + 1) rest s.2.2
    ⟨s.1 :: acc.logs, s.2.2.tot :: acc.tots, s.2.1 :: acc.posCol, acc.final⟩

/-- Reads a numeric frame cell the way the loop reads `portfolio_value`
and `ewma` (never `NaN` on the frames the pipeline produces). -/
def numAt (c : Cell) : ℚ :=
  match c with
  | Cell.num x => x
  | _ => 0

/-- Reads a possibly-`NaN` numeric frame cell (the band columns). -/
def optAt (c : Cell) : Option ℚ :=
  match c with
  | Cell.num x => some x
  | _ => none

/-- A named numeric column of a frame. -/
def colNum (df : Frame) (name : String) : List ℚ := ((df.lookup name).getD []).map numAt

/-- A named possibly-`NaN` numeric column of a frame. -/
def colOpt (df : Frame) (name : String) : List (Option ℚ) := ((df.lookup name).getD []).map optAt

/-- `df[name] = col`: overwrite the column if it exists, else append it
at the end, as pandas column assignment does. -/
def setCol (df : Frame) (name : String) (col : List Cell) : Frame :=
  if df.any (fun p => p.1 == name) then
    df.map (fun p => if p.1 == name then (name, col) else p)
  else df ++ [(name, col)]

/-- Embeds a `position` column entry as a cell. -/
def ofPos (o : Option String) : Cell :=
  match o with
  | some s => Cell.str s
  | none => Cell.blank

/-- The per-date rows the loop reads, `(price, ewma, upper, lower)`. -/
def trackRows (df : Frame) : List (ℚ × ℚ × Option ℚ × Option ℚ) :=
  (colNum df ("portfolio_value")).zip
    ((colNum df ("ewma")).zip
      ((colOpt df ("bollinger_upper")).zip (colOpt df ("bollinger_lower"))))

/-- `df['trade_pnl'] = 0.0` (line 272): a column of zeros, never written
again. -/
def zerosCol (df : Frame) : List Cell := (colNum df ("portfolio_value")).map (fun _ => Cell.num 0)

/-- The in-place mutation `track_trades` performs on its argument frame
(lines 272-274, 278, 288, 310, 321, 332, 342): the three added columns
with their final contents. -/
def trackFrame (df : Frame) (init : ℚ) (acc : TrackAcc) : Frame :=
  setCol
    (setCol (setCol df ("trade_pnl") (zerosCol df))
      ("total_trade_pnl") ((init :: acc.tots).map Cell.num))
    ("position") ((none :: acc.posCol).map ofPos)

/-- Everything observable about a `track_trades` run: the mutated frame,
the returned `(trade_logs, trades_tally)`, the final
`current_position`, and whether the `"Position still open"` warning
(line 352-353, guarded by `current_position == 'Open'`) fires. -/
structure TrackOutput where
  frame : Frame
  logs : List TradeRec
  tally : ℕ
  finalPos : Option String
  stillOpenWarned : Bool
deriving DecidableEq

/-- `track_trades` (lines 255-355).  Row 0 is recorded as a `'neither'`
baseline with `total_trade_pnl = realized_balance = initial_investment`;
the loop then scans rows `1..`.  On a frame with no `portfolio_value`
data the Python code raises before returning; that degenerate case is
modelled as an empty log (the three columns are still added first, as in
the source). -/
def track_trades (df : Frame) (init : ℚ) : TrackOutput :=
  match colNum df ("portfolio_value") with
  | [] =>
    ⟨setCol (setCol (setCol df ("trade_pnl") []) ("total_trade_pnl") []) ("position") [],
      [], 0, none, false⟩
  | p0 :: _ =>
    (fun acc =>
        ⟨trackFrame df init acc, ⟨0, p0, ("neither"), init⟩ :: acc.logs, acc.final.tally,
          acc.final.pos, acc.final.pos == some ("Open")⟩)
      (trackGo 1 ((trackRows df).drop 1) ⟨none, 0, 0, init, 0, init⟩)

/-- A trade-log record counted by `trades_tally`: the exits. -/
def isExit (r : TradeRec) : Bool := r.ttype == ("short_exit") || r.ttype == ("long_exit")

/-! ## Portfolio valuator lemmas -/

theorem rebalGo_zero_freq (cols : List Ticker) (w : List (Ticker × ℚ)) :
    ∀ (rows : List (Ticker → ℚ)) (k : ℕ) (s : List (Ticker × ℚ)),
      rebalGo cols w 0 k rows s = some (rows.map (fun r => valueOf s r)) := by
  intro rows
  induction rows with
  | nil => intro k s; rfl
  | cons r rest ih => intro k s; simp [rebalGo, ih]

/-- C2: with `frequencyDays = 0` the guard `rebalance_frequency > 0` never
fires, so the Periodic valuator returns (without failing) exactly the
per-date drifting-share values of the NoRebalance valuator, entry for
entry. -/
theorem periodic_zero_matches_no_rebalance (df : Df) (w : List (Ticker × ℚ)) (init : ℚ) :
    calculate_portfolio_value_with_rebalancing df w init 0 =
      some (calculate_portfolio_value_no_rebalancing df w init) := by
  rw [calculate_portfolio_value_with_rebalancing, rebalGo_zero_freq]
  unfold calculate_portfolio_value_no_rebalancing
  simp only [valueOf, initialShares, List.map_map]
  rfl

/-- C5 amended: on a 1-record price series both valuators return a
1-entry value series (the code has no length validation and defines no
`InsufficientDataError`). -/
theorem single_record_valuation_returns (df : Df) (w : List (Ticker × ℚ)) (init : ℚ)
    (h : df.rows.length = 1) :
    calculate_portfolio_value_no_rebalancing df w init
        = [valueOf (initialShares df w init) df.rows.headI] ∧
    ∀ freq : ℕ, calculate_portfolio_value_with_rebalancing df w init freq
        = some [valueOf (initialShares df w init) df.rows.headI] := by
  obtain ⟨r, hr⟩ := List.length_eq_one.mp h
  constructor
  · simp only [calculate_portfolio_value_no_rebalancing, hr, List.map_cons, List.map_nil,
      List.headI, valueOf, initialShares, List.map_map]
    rfl
  · intro freq
    simp only [calculate_portfolio_value_with_rebalancing, hr, List.headI]
    simp [rebalGo]

/-- Witness for `single_record_valuation_returns` at a concrete 1-record
series. -/
theorem single_record_valuation_returns_witness :
    (⟨[("A")], [fun _ => (5 : ℚ)]⟩ : Df).rows.length = 1 ∧
    (calculate_portfolio_value_no_rebalancing ⟨[("A")], [fun _ => 5]⟩ [(("A"), 1)] 1000
        = [valueOf (initialShares ⟨[("A")], [fun _ => 5]⟩ [(("A"), 1)] 1000)
            (⟨[("A")], [fun _ => 5]⟩ : Df).rows.headI] ∧
      ∀ freq : ℕ,
        calculate_portfolio_value_with_rebalancing ⟨[("A")], [fun _ => 5]⟩ [(("A"), 1)] 1000 freq
          = some [valueOf (initialShares ⟨[("A")], [fun _ => 5]⟩ [(("A"), 1)] 1000)
              (⟨[("A")], [fun _ => 5]⟩ : Df).rows.headI]) :=
  ⟨rfl, single_record_valuation_returns _ _ _ rfl⟩

/-- C5 as stated is false on the code: a 1-record series is valued, not
rejected - both valuators return the 1-entry series `[1000]`, and the
code base defines no `InsufficientDataError` at all. -/
theorem single_record_no_error :
    calculate_portfolio_value_no_rebalancing ⟨[("A")], [fun _ => 5]⟩ [(("A"), 1)] 1000 = [1000] ∧
    calculate_portfolio_value_with_rebalancing ⟨[("A")], [fun _ => 5]⟩ [(("A"), 1)] 1000 1
      = some [1000] := by
  constructor <;>
    simp [calculate_portfolio_value_no_rebalancing, calculate_portfolio_value_with_rebalancing,
      rebalGo, retained, initialShares, valueOf, List.headI] <;>
    norm_num

/-! ## Periodic rebalancing: which shares are active when -/

/-- Spec-side description of the Periodic valuator for comparison with
the source scan: value each row from the active share dict, and after a
row at a rebalance index (`0 < freq`, `i % freq = 0`, `i ≠ 0`) replace
the shares by `rebalShares weights (current value) (current prices)` -
recomputed from the original weight dict, with no exclusion - leaving
them untouched between rebalance indices. -/
def rebalSpecValues (w : List (Ticker × ℚ)) (freq : ℕ) :
    ℕ → List (Ticker → ℚ) → List (Ticker × ℚ) → List ℚ
  | _, [], _ => []
  | i, r :: rest, shares =>
    valueOf shares r ::
      rebalSpecValues w freq (i + 1) rest
        (if 0 < freq ∧ i % freq = 0 ∧ i ≠ 0 then rebalShares w (valueOf shares r) r else shares)

theorem rebalGo_all_present (cols : List Ticker) (w : List (Ticker × ℚ)) (freq : ℕ)
    (hall : w.all (fun p => cols.contains p.1) = true) :
    ∀ (rows : List (Ticker → ℚ)) (k : ℕ) (s : List (Ticker × ℚ)),
      rebalGo cols w freq k rows s = some (rebalSpecValues w freq k rows s) := by
  intro rows
  induction rows with
  | nil => intro k s; rfl
  | cons r rest ih =>
    intro k s
    by_cases hc : 0 < freq ∧ k % freq = 0 ∧ k ≠ 0
    · simp only [rebalGo, rebalSpecValues]
      rw [if_pos hc, if_pos hall, if_pos hc, ih]
      rfl
    · simp only [rebalGo, rebalSpecValues]
      rw [if_neg hc, if_neg hc, ih]
      rfl

theorem rebalGo_missing_fails (cols : List Ticker) (w : List (Ticker × ℚ)) (freq : ℕ)
    (hmiss : w.all (fun p => cols.contains p.1) = false) (hf : 0 < freq) :
    ∀ (rows : List (Ticker → ℚ)) (k : ℕ) (s : List (Ticker × ℚ)),
      (∃ i, k ≤ i ∧ i < k + rows.length ∧ i ≠ 0 ∧ i % freq = 0) →
      rebalGo cols w freq k rows s = none := by
  intro rows
  induction rows with
  | nil =>
    intro k s h
    obtain ⟨i, hki, hlt, _, _⟩ := h
    simp only [List.length_nil] at hlt
    omega
  | cons r rest ih =>
    intro k s h
    obtain ⟨i, hki, hlt, hne, hmod⟩ := h
    simp only [List.length_cons] at hlt
    by_cases hc : 0 < freq ∧ k % freq = 0 ∧ k ≠ 0
    · simp only [rebalGo]
      rw [if_pos hc, if_neg (by rw [hmiss]; exact Bool.false_ne_true)]
    · have hik : i ≠ k := by
        rintro rfl
        exact hc ⟨hf, hmod, hne⟩
      have hrec : rebalGo cols w freq (k + 1) rest s = none :=
        ih (k + 1) s ⟨i, by omega, by omega, hne, hmod⟩
      simp only [rebalGo]
      rw [if_neg hc, hrec]
      rfl

/-- C3 amended: at every rebalance index the shares are recomputed from
the current portfolio value and the original target weights over the
*whole* weight dict - the exclusion applied at initial allocation is
*not* applied again - and between rebalance indices the shares stay
fixed (`rebalSpecValues`); when every weighted ticker is a price column
the scan returns exactly those values, and when some weighted ticker is
absent the first reached rebalance index raises (`none`). -/
theorem rebalance_ignores_price_exclusion (df : Df) (w : List (Ticker × ℚ)) (init : ℚ)
    (freq : ℕ) :
    (w.all (fun p => df.cols.contains p.1) = true →
      calculate_portfolio_value_with_rebalancing df w init freq
        = some (rebalSpecValues w freq 0 df.rows (initialShares df w init))) ∧
    (w.all (fun p => df.cols.contains p.1) = false → 0 < freq →
      (∃ i, i < df.rows.length ∧ i ≠ 0 ∧ i % freq = 0) →
      calculate_portfolio_value_with_rebalancing df w init freq = none) := by
  constructor
  · intro hall
    exact rebalGo_all_present df.cols w freq hall df.rows 0 (initialShares df w init)
  · rintro hmiss hf ⟨i, hlt, hne, hmod⟩
    exact rebalGo_missing_fails df.cols w freq hmiss hf df.rows 0 (initialShares df w init)
      ⟨i, Nat.zero_le i, by omega, hne, hmod⟩

/-- Witness for `rebalance_ignores_price_exclusion`: a fully-priced
weight dict runs to completion; a weight dict with the unpriced ticker
`"B"` fails at the first rebalance. -/
theorem rebalance_ignores_price_exclusion_witness :
    (([(("A"), (1 : ℚ))] : List (Ticker × ℚ)).all
        (fun p => (⟨[("A")], [fun _ => 10, fun _ => 20]⟩ : Df).cols.contains p.1) = true ∧
      calculate_portfolio_value_with_rebalancing ⟨[("A")], [fun _ => 10, fun _ => 20]⟩
          [(("A"), 1)] 1000 1
        = some (rebalSpecValues [(("A"), 1)] 1 0
            (⟨[("A")], [fun _ => 10, fun _ => 20]⟩ : Df).rows
            (initialShares ⟨[("A")], [fun _ => 10, fun _ => 20]⟩ [(("A"), 1)] 1000))) ∧
    (([(("A"), (1 : ℚ)/2), (("B"), 1/2)] : List (Ticker × ℚ)).all
        (fun p => (⟨[("A")], [fun _ => 10, fun _ => 20]⟩ : Df).cols.contains p.1) = false ∧
      calculate_portfolio_value_with_rebalancing ⟨[("A")], [fun _ => 10, fun _ => 20]⟩
          [(("A"), 1/2), (("B"), 1/2)] 1000 1 = none) :=
  ⟨⟨by decide, (rebalance_ignores_price_exclusion _ _ _ _).1 (by decide)⟩,
    ⟨by decide, (rebalance_ignores_price_exclusion _ _ _ _).2 (by decide) (by decide)
      ⟨1, by decide⟩⟩⟩

/-- C3 as stated is false on the code: with the weighted instrument
`"B"` absent from the price columns, the rebalance at index 1 is not
restricted to the retained instruments - it looks up `"B"` in the price
row and the whole run fails (`KeyError`, modelled `none`) instead of
succeeding on `{"A"}`; indeed the share recomputation ranges over the
whole weight dict, `"B"` included. -/
theorem rebalance_missing_instrument_fails :
    calculate_portfolio_value_with_rebalancing ⟨[("A")], [fun _ => 10, fun _ => 20]⟩
        [(("A"), 1/2), (("B"), 1/2)] 1000 1 = none ∧
    (rebalShares [(("A"), (1 : ℚ)/2), (("B"), 1/2)] 1000 (fun _ => 20)).map Prod.fst
      = [("A"), ("B")] := by
  constructor
  · simp [calculate_portfolio_value_with_rebalancing, rebalGo, initialShares, retained,
      valueOf, rebalShares, List.headI]
  · simp [rebalShares]

theorem sum_map_mul_left_pairs (w : List (Ticker × ℚ)) (v : ℚ) :
    (w.map (fun p => v * p.2)).sum = v * (w.map Prod.snd).sum := by
  induction w with
  | nil => simp
  | cons a l ih => simp [ih, mul_add]

/-- C10: at a rebalance whose weights sum to 1 and whose weighted
instruments all have positive prices, the recomputed holdings are
self-financing - `valueOf (rebalShares w v r) r = v` - and the value the
scan records at the rebalance index itself is computed from the
pre-rebalance share set (the head of the scan output), so the new
shares first affect the following index. -/
theorem rebalance_self_financing_and_deferred (w : List (Ticker × ℚ)) (v : ℚ)
    (r : Ticker → ℚ) (hpos : ∀ p ∈ w, 0 < r p.1) (hsum : (w.map Prod.snd).sum = 1)
    (cols : List Ticker) (freq i : ℕ) (row : Ticker → ℚ) (rest : List (Ticker → ℚ))
    (shares : List (Ticker × ℚ)) (vs : List ℚ)
    (hrun : rebalGo cols w freq i (row :: rest) shares = some vs) :
    valueOf (rebalShares w v r) r = v ∧ vs.head? = some (valueOf shares row) := by
  constructor
  · unfold valueOf rebalShares
    rw [List.map_map]
    have h1 : ∀ p ∈ w, ((fun p => r p.1 * p.2) ∘ fun p => (p.1, v * p.2 / r p.1)) p
        = v * p.2 := by
      intro p hp
      have hr := (hpos p hp).ne'
      simp only [Function.comp_apply]
      rw [mul_comm, div_mul_cancel₀ _ hr]
    rw [List.map_congr_left h1, sum_map_mul_left_pairs, hsum, mul_one]
  · simp only [rebalGo] at hrun
    by_cases hc : 0 < freq ∧ i % freq = 0 ∧ i ≠ 0
    · rw [if_pos hc] at hrun
      by_cases hall : w.all (fun p => cols.contains p.1) = true
      · rw [if_pos hall] at hrun
        obtain ⟨a, _, h2⟩ := Option.map_eq_some'.mp hrun
        rw [← h2]
        rfl
      · rw [if_neg hall] at hrun
        cases hrun
    · rw [if_neg hc] at hrun
      obtain ⟨a, _, h2⟩ := Option.map_eq_some'.mp hrun
      rw [← h2]
      rfl

/-- Witness for `rebalance_self_financing_and_deferred` at a one-ticker
weight dict and a one-row scan. -/
theorem rebalance_self_financing_and_deferred_witness :
    (∀ p ∈ ([(("A"), (1 : ℚ))] : List (Ticker × ℚ)), 0 < (fun _ => (2 : ℚ)) p.1) ∧
    (([(("A"), (1 : ℚ))] : List (Ticker × ℚ)).map Prod.snd).sum = 1 ∧
    rebalGo [("A")] [(("A"), (1 : ℚ))] 1 0 [fun _ => (3 : ℚ)] [(("A"), 5)] = some [15] ∧
    (valueOf (rebalShares [(("A"), (1 : ℚ))] 7 (fun _ => 2)) (fun _ => 2) = 7 ∧
      ([15] : List ℚ).head? = some (valueOf [(("A"), (5 : ℚ))] (fun _ => (3 : ℚ)))) :=
  ⟨by norm_num, by norm_num,
    by norm_num [rebalGo, valueOf],
    rebalance_self_financing_and_deferred [(("A"), (1 : ℚ))] 7 (fun _ => 2) (by norm_num)
      (by norm_num) [("A")] 1 0 (fun _ => (3 : ℚ)) [] [(("A"), 5)] [15]
      (by norm_num [rebalGo, valueOf])⟩

/-! ## EWMA: the adjusted weighted mean -/

theorem ewmGo_length (d : ℚ) :
    ∀ (xs : List ℚ) (num den : ℚ), (ewmGo d num den xs).length = xs.length := by
  intro xs
  induction xs with
  | nil => intro num den; rfl
  | cons x rest ih => intro num den; simp [ewmGo, ih]

theorem ewmGo_getD (d : ℚ) :
    ∀ (xs : List ℚ) (num den : ℚ) (t : ℕ), t < xs.length →
      (ewmGo d num den xs).getD t 0 =
        (((Finset.range (t + 1)).sum fun i => d ^ i * xs.getD (t - i) 0) + d ^ (t + 1) * num) /
        (((Finset.range (t + 1)).sum fun i => d ^ i) + d ^ (t + 1) * den) := by
  intro xs
  induction xs with
  | nil => intro num den t ht; simp at ht
  | cons x rest ih =>
    intro num den t ht
    cases t with
    | zero =>
      simp [ewmGo, Finset.sum_range_one]
    | succ t =>
      have ht' : t < rest.length := by
        simpa [Nat.succ_lt_succ_iff] using ht
      simp only [ewmGo, List.getD_cons_succ]
      rw [ih (x + d * num) (1 + d * den) t ht']
      have hnum : (Finset.range (t + 1 + 1)).sum
            (fun i => d ^ i * (x :: rest).getD (t + 1 - i) 0)
          = ((Finset.range (t + 1)).sum fun i => d ^ i * rest.getD (t - i) 0)
            + d ^ (t + 1) * x := by
        rw [Finset.sum_range_succ]
        congr 1
        · refine Finset.sum_congr rfl ?_
          intro i hi
          have hit : i ≤ t := by simpa [Nat.lt_succ_iff] using hi
          have hsub : t + 1 - i = (t - i) + 1 := by omega
          rw [hsub, List.getD_cons_succ]
        · simp
      have hden : (Finset.range (t + 1 + 1)).sum (fun i => d ^ i)
          = ((Finset.range (t + 1)).sum fun i => d ^ i) + d ^ (t + 1) := by
        rw [Finset.sum_range_succ]
      rw [hnum, hden]
      congr 1 <;> ring

theorem ewmAdjusted_getD (d : ℚ) (xs : List ℚ) (t : ℕ) (ht : t < xs.length) :
    (ewmAdjusted d xs).getD t 0 =
      ((Finset.range (t + 1)).sum fun i => d ^ i * xs.getD (t - i) 0) /
      ((Finset.range (t + 1)).sum fun i => d ^ i) := by
  have h := ewmGo_getD d xs 0 0 t ht
  simpa [ewmAdjusted] using h

/-- C1 amended: the estimator's `ewma` column is the pandas default,
the `adjust=True` *bias-corrected* weighted mean
`ewma[t] = (Σ i ≤ t, d^i · value[t-i]) / (Σ i ≤ t, d^i)` with decay
`d = 1 - α = 2^(-1/halflifeDays)` (so `(1-α)^halflifeDays = 0.5`); in
particular `ewma[0] = value[0]`, but the claimed recursion
`ewma[t] = α·value[t] + (1-α)·ewma[t-1]` does not hold. -/
theorem ewma_is_adjusted_weighted_mean (d : ℚ) (sf : ℚ → ℚ) (hl : ℕ) (pv : List ℚ)
    (t : ℕ) (ht : t < pv.length) :
    (add_ewma_bollinger_bands d sf hl pv).lookup ("ewma")
        = some ((ewmAdjusted d pv).map Cell.num) ∧
    (ewmAdjusted d pv).getD t 0 =
      ((Finset.range (t + 1)).sum fun i => d ^ i * pv.getD (t - i) 0) /
      ((Finset.range (t + 1)).sum fun i => d ^ i) :=
  ⟨rfl, ewmAdjusted_getD d pv t ht⟩

/-- Witness for `ewma_is_adjusted_weighted_mean` at `d = 1/2`,
`halflife 1`, values `[0, 1]`, index 1. -/
theorem ewma_is_adjusted_weighted_mean_witness :
    1 < ([0, 1] : List ℚ).length ∧
    ((add_ewma_bollinger_bands (1/2) id 1 ([0, 1] : List ℚ)).lookup ("ewma")
        = some ((ewmAdjusted (1/2) ([0, 1] : List ℚ)).map Cell.num) ∧
      (ewmAdjusted (1/2) ([0, 1] : List ℚ)).getD 1 0 =
        ((Finset.range 2).sum fun i => (1/2 : ℚ) ^ i * ([0, 1] : List ℚ).getD (1 - i) 0) /
        ((Finset.range 2).sum fun i => (1/2 : ℚ) ^ i)) :=
  ⟨by norm_num, ewma_is_adjusted_weighted_mean (1/2) id 1 [0, 1] 1 (by norm_num)⟩

/-- C1 as stated is false on the code: pandas `ewm` defaults to
`adjust=True`, so the claimed recursion
`ewma[t] = α·value[t] + (1-α)·ewma[t-1]` fails.  With `halflifeDays = 1`
the decay `1-α = 1/2` is exactly representable (the unique solution of
`(1-α)^1 = 0.5`), and on values `[0, 1]` the estimator's `ewma[1]` is
`2/3`, not `α·1 + (1-α)·0 = 1/2`. -/
theorem ewma_recursive_form_fails :
    ((1 : ℚ) - 1/2) ^ (1 : ℕ) = 1/2 ∧
    (((add_ewma_bollinger_bands (1/2) id 1 ([0, 1] : List ℚ)).lookup ("ewma")).getD []).getD 0
        Cell.blank = Cell.num 0 ∧
    (((add_ewma_bollinger_bands (1/2) id 1 ([0, 1] : List ℚ)).lookup ("ewma")).getD []).getD 1
        Cell.blank = Cell.num (2/3) ∧
    (2/3 : ℚ) ≠ (1/2) * 1 + (1 - 1/2) * 0 := by
  have hlk : (add_ewma_bollinger_bands (1/2) id 1 ([0, 1] : List ℚ)).lookup ("ewma")
      = some ((ewmAdjusted (1/2) ([0, 1] : List ℚ)).map Cell.num) := rfl
  refine ⟨by norm_num, ?_, ?_, by norm_num⟩ <;> rw [hlk] <;> norm_num [ewmAdjusted, ewmGo]

/-! ## Rolling standard deviation and the bands -/

theorem rollingStd_length (sf : ℚ → ℚ) (hl : ℕ) (xs : List ℚ) :
    (rollingStd sf hl xs).length = xs.length := by
  simp [rollingStd]

theorem rollingStd_getD (sf : ℚ → ℚ) (hl : ℕ) (xs : List ℚ) (t : ℕ) (ht : t < xs.length) :
    (rollingStd sf hl xs).getD t none
      = if 2 ≤ hl ∧ hl - 1 ≤ t then some (sf (sampleVar (windowAt hl xs t))) else none := by
  simp [rollingStd, List.getD_eq_getElem?_getD, List.getElem?_range, ht]

theorem getD_zip_map {α β γ : Type} (g : α × β → γ) (dc : γ) (da : α) (db : β) :
    ∀ (e : List α) (s : List β) (t : ℕ), t < e.length → t < s.length →
      ((e.zip s).map g).getD t dc = g (e.getD t da, s.getD t db) := by
  intro e
  induction e with
  | nil => intro s t ht _; simp at ht
  | cons x e ih =>
    intro s t ht hs
    cases s with
    | nil => simp at hs
    | cons y s =>
      cases t with
      | zero => rfl
      | succ t =>
        simp only [List.zip_cons_cons, List.map_cons, List.getD_cons_succ]
        exact ih s t (by simpa using ht) (by simpa using hs)

/-- C6 amended: the rolling standard deviation is `NaN` (the sentinel
`none`, never zero) at every index `< halflifeDays - 1`, and is defined
at every index `≥ halflifeDays - 1` *only when* `halflifeDays ≥ 2`: for
`halflifeDays = 1` pandas' sample deviation (`ddof = 1`) has zero
degrees of freedom and the column is `NaN` everywhere.  The bands are
`ewma[t] ± 2·stddev[t]`, undefined exactly where the deviation is. -/
theorem rolling_std_defined_iff_window_filled (d : ℚ) (sf : ℚ → ℚ) (hl : ℕ) (xs : List ℚ)
    (hhl : 0 < hl) (t : ℕ) (ht : t < xs.length) :
    (((rollingStd sf hl xs).getD t none).isSome = true ↔ 2 ≤ hl ∧ hl - 1 ≤ t) ∧
    (bollingerUpper (ewmAdjusted d xs) (rollingStd sf hl xs)).getD t none
      = ((rollingStd sf hl xs).getD t none).map
          (fun s => (ewmAdjusted d xs).getD t 0 + 2 * s) ∧
    (bollingerLower (ewmAdjusted d xs) (rollingStd sf hl xs)).getD t none
      = ((rollingStd sf hl xs).getD t none).map
          (fun s => (ewmAdjusted d xs).getD t 0 - 2 * s) := by
  have hel : t < (ewmAdjusted d xs).length := by
    rw [ewmAdjusted, ewmGo_length]; exact ht
  have hsl : t < (rollingStd sf hl xs).length := by
    rw [rollingStd_length]; exact ht
  refine ⟨?_, ?_, ?_⟩
  · rw [rollingStd_getD sf hl xs t ht]
    by_cases hc : 2 ≤ hl ∧ hl - 1 ≤ t
    · simp [hc]
    · simp [hc]
  · rw [bollingerUpper, getD_zip_map _ none 0 none _ _ t hel hsl]
  · rw [bollingerLower, getD_zip_map _ none 0 none _ _ t hel hsl]

/-- Witness for `rolling_std_defined_iff_window_filled` at halflife 2,
values `[0, 1]`, index 1 (the first defined deviation). -/
theorem rolling_std_defined_iff_window_filled_witness :
    (0 : ℕ) < 2 ∧ 1 < ([0, 1] : List ℚ).length ∧
    ((((rollingStd id 2 ([0, 1] : List ℚ)).getD 1 none).isSome = true ↔
        2 ≤ 2 ∧ 2 - 1 ≤ 1) ∧
      (bollingerUpper (ewmAdjusted (1/2) ([0, 1] : List ℚ))
          (rollingStd id 2 ([0, 1] : List ℚ))).getD 1 none
        = ((rollingStd id 2 ([0, 1] : List ℚ)).getD 1 none).map
            (fun s => (ewmAdjusted (1/2) ([0, 1] : List ℚ)).getD 1 0 + 2 * s) ∧
      (bollingerLower (ewmAdjusted (1/2) ([0, 1] : List ℚ))
          (rollingStd id 2 ([0, 1] : List ℚ))).getD 1 none
        = ((rollingStd id 2 ([0, 1] : List ℚ)).getD 1 none).map
            (fun s => (ewmAdjusted (1/2) ([0, 1] : List ℚ)).getD 1 0 - 2 * s)) :=
  ⟨by norm_num, by norm_num,
    rolling_std_defined_iff_window_filled (1/2) id 2 [0, 1] (by norm_num) 1 (by norm_num)⟩

/-- C6 as stated is false for `halflifeDays = 1`: the claim says the
deviation is defined at every index `≥ halflifeDays - 1 = 0`, but with a
window of 1 observation and `ddof = 1` pandas returns `NaN` at every
index, modelled `none`. -/
theorem rolling_std_halflife_one_undefined :
    (0 : ℕ) < 1 ∧ (1 : ℕ) - 1 ≤ 0 ∧
    (rollingStd id 1 ([5, 7] : List ℚ)).getD 0 none = none ∧
    (rollingStd id 1 ([5, 7] : List ℚ)).getD 1 none = none := by
  refine ⟨by norm_num, by norm_num, ?_, ?_⟩ <;> simp [rollingStd, List.range_succ]

/-- C7 amended: the frame the band estimator returns carries, per date,
the portfolio value, the ewma and the two bands - but *not* the rolling
standard deviation, whose column is computed internally and dropped
(`df.drop(columns=['std_dev'])`) before returning. -/
theorem band_frame_drops_std_column (d : ℚ) (sf : ℚ → ℚ) (hl : ℕ) (pv : List ℚ) :
    (add_ewma_bollinger_bands d sf hl pv).map Prod.fst
      = [("portfolio_value"), ("ewma"), ("bollinger_upper"), ("bollinger_lower")] ∧
    (add_ewma_bollinger_bands d sf hl pv).lookup ("std_dev") = none ∧
    (add_ewma_bollinger_bands d sf hl pv).lookup ("portfolio_value")
      = some (pv.map Cell.num) ∧
    (add_ewma_bollinger_bands d sf hl pv).lookup ("ewma")
      = some ((ewmAdjusted d pv).map Cell.num) ∧
    (add_ewma_bollinger_bands d sf hl pv).lookup ("bollinger_upper")
      = some ((bollingerUpper (ewmAdjusted d pv) (rollingStd sf hl pv)).map ofOpt) ∧
    (add_ewma_bollinger_bands d sf hl pv).lookup ("bollinger_lower")
      = some ((bollingerLower (ewmAdjusted d pv) (rollingStd sf hl pv)).map ofOpt) :=
  ⟨rfl, rfl, rfl, rfl, rfl, rfl⟩

/-- C7 as stated is false on the code: at a concrete input the returned
frame has no `std_dev` column at any date. -/
theorem band_frame_missing_std_column :
    ((add_ewma_bollinger_bands (1/2) id 2 ([1, 2, 3] : List ℚ)).map Prod.fst).contains
      ("std_dev") = false := by
  decide

/-! ## Trade tracker: tally, state and frame effect -/

theorem tradeStep_tally (i : ℕ) (row : ℚ × ℚ × Option ℚ × Option ℚ) (st : TState) :
    (tradeStep i row st).2.2.tally
      = st.tally + (if isExit (tradeStep i row st).1 then 1 else 0) := by
  simp only [tradeStep]
  split_ifs <;> simp_all [isExit]

theorem tradeStep_pos (i : ℕ) (row : ℚ × ℚ × Option ℚ × Option ℚ) (st : TState)
    (h : st.pos ≠ some ("Open")) : (tradeStep i row st).2.2.pos ≠ some ("Open") := by
  simp only [tradeStep]
  split_ifs <;> simp_all

theorem trackGo_tally :
    ∀ (rows : List (ℚ × ℚ × Option ℚ × Option ℚ)) (i : ℕ) (st : TState),
      (trackGo i rows st).final.tally = st.tally + (trackGo i rows st).logs.countP isExit := by
  intro rows
  induction rows with
  | nil => intro i st; simp [trackGo]
  | cons row rest ih =>
    intro i st
    simp only [trackGo, List.countP_cons]
    rw [ih (i + 1) (tradeStep i row st).2.2, tradeStep_tally i row st]
    omega

theorem trackGo_pos :
    ∀ (rows : List (ℚ × ℚ × Option ℚ × Option ℚ)) (i : ℕ) (st : TState),
      st.pos ≠ some ("Open") → (trackGo i rows st).final.pos ≠ some ("Open") := by
  intro rows
  induction rows with
  | nil => intro i st h; exact h
  | cons row rest ih =>
    intro i st h
    exact ih (i + 1) (tradeStep i row st).2.2 (tradeStep_pos i row st h)

/-- C8: the returned `trades_tally` equals the number of
`short_exit`/`long_exit` records in the returned trade log (row 0's
baseline record is `'neither'` and counts nothing), and the running
tally is monotone: from any state, running the scan over any remaining
rows never decreases it. -/
theorem tally_counts_exit_events (df : Frame) (init : ℚ) :
    (track_trades df init).tally = (track_trades df init).logs.countP isExit ∧
    ∀ (i : ℕ) (rows : List (ℚ × ℚ × Option ℚ × Option ℚ)) (st : TState),
      st.tally ≤ (trackGo i rows st).final.tally := by
  constructor
  · cases hpv : colNum df ("portfolio_value") with
    | nil => simp [track_trades, hpv]
    | cons p0 tl =>
      simp only [track_trades, hpv]
      rw [List.countP_cons, trackGo_tally]
      simp [isExit]
  · intro i rows st
    rw [trackGo_tally]
    exact Nat.le_add_right _ _

theorem setCol_of_not_mem (df : Frame) (name : String) (col : List Cell)
    (h : name ∉ df.map Prod.fst) : setCol df name col = df ++ [(name, col)] := by
  rw [setCol, if_neg]
  intro hc
  simp only [List.any_eq_true] at hc
  obtain ⟨p, hp, he⟩ := hc
  have hpe : p.1 = name := by simpa using he
  exact h (hpe ▸ List.mem_map_of_mem Prod.fst hp)

theorem lookup_append_of_mem :
    ∀ (l l2 : Frame) (name : String), name ∈ l.map Prod.fst →
      (l ++ l2).lookup name = l.lookup name := by
  intro l
  induction l with
  | nil => intro l2 name h; simp at h
  | cons p tl ih =>
    intro l2 name h
    obtain ⟨k, v⟩ := p
    by_cases hk : (name == k) = true
    · simp [List.lookup, hk]
    · have hname : name ∈ tl.map Prod.fst := by
        have hne : name ≠ k := by simpa using hk
        simpa [hne] using h
      simp [List.lookup, hk, ih l2 name hname]

/-- C9 amended: the tracker is deterministic (it is a function of the
frame and the initial investment alone), but it does *not* leave its
input frame unchanged: it mutates the frame in place, appending the
columns `trade_pnl`, `total_trade_pnl` and `position` (in that order)
while leaving every pre-existing column's contents intact. -/
theorem track_trades_adds_columns (df : Frame) (init : ℚ)
    (h1 : ("trade_pnl") ∉ df.map Prod.fst)
    (h2 : ("total_trade_pnl") ∉ df.map Prod.fst)
    (h3 : ("position") ∉ df.map Prod.fst) :
    (track_trades df init).frame.map Prod.fst
        = df.map Prod.fst ++ [("trade_pnl"), ("total_trade_pnl"), ("position")] ∧
    ∀ name ∈ df.map Prod.fst, (track_trades df init).frame.lookup name = df.lookup name := by
  have hchain : ∀ c1 c2 c3 : List Cell,
      setCol (setCol (setCol df ("trade_pnl") c1) ("total_trade_pnl") c2) ("position") c3
        = df ++ [(("trade_pnl"), c1), (("total_trade_pnl"), c2), (("position"), c3)] := by
    intro c1 c2 c3
    rw [setCol_of_not_mem df _ c1 h1,
      setCol_of_not_mem _ _ c2 (by simp [h2]),
      setCol_of_not_mem _ _ c3 (by simp [h3])]
    simp
  have hframe : ∃ c1 c2 c3 : List Cell,
      (track_trades df init).frame
        = df ++ [(("trade_pnl"), c1), (("total_trade_pnl"), c2), (("position"), c3)] := by
    cases hpv : colNum df ("portfolio_value") with
    | nil =>
      refine ⟨[], [], [], ?_⟩
      simp only [track_trades, hpv]
      exact hchain [] [] []
    | cons p0 tl =>
      simp only [track_trades, hpv, trackFrame]
      exact ⟨_, _, _, hchain _ _ _⟩
  obtain ⟨c1, c2, c3, hf⟩ := hframe
  rw [hf]
  constructor
  · simp
  · intro name hn
    exact lookup_append_of_mem df _ name hn

/-- Witness for `track_trades_adds_columns` at a one-column frame. -/
theorem track_trades_adds_columns_witness :
    (("trade_pnl") ∉ ([(("portfolio_value"), [Cell.num 1])] : Frame).map Prod.fst) ∧
    (("total_trade_pnl") ∉ ([(("portfolio_value"), [Cell.num 1])] : Frame).map Prod.fst) ∧
    (("position") ∉ ([(("portfolio_value"), [Cell.num 1])] : Frame).map Prod.fst) ∧
    ((track_trades [(("portfolio_value"), [Cell.num 1])] 1).frame.map Prod.fst
        = ([(("portfolio_value"), [Cell.num 1])] : Frame).map Prod.fst
          ++ [("trade_pnl"), ("total_trade_pnl"), ("position")] ∧
      ∀ name ∈ ([(("portfolio_value"), [Cell.num 1])] : Frame).map Prod.fst,
        (track_trades [(("portfolio_value"), [Cell.num 1])] 1).frame.lookup name
          = ([(("portfolio_value"), [Cell.num 1])] : Frame).lookup name) :=
  ⟨by decide, by decide, by decide,
    track_trades_adds_columns [(("portfolio_value"), [Cell.num 1])] 1 (by decide) (by decide)
      (by decide)⟩

/-- C9 as stated is false on the code: `track_trades` does not leave its
input frame unchanged - at a concrete one-column frame the frame after
the call differs from the frame before it (three columns were added). -/
theorem track_trades_mutates_input :
    (track_trades [(("portfolio_value"), [Cell.num 1])] 1000).frame
      ≠ [(("portfolio_value"), [Cell.num 1])] := by
  simp [track_trades, colNum, colOpt, trackRows, trackGo, trackFrame, setCol, zerosCol,
    numAt, optAt, tradeStep]

/-- The open-position run for C4: a short entry at index 1 (price 30
above the upper band 20) that never exits (price stays above the ewma),
so the run ends with `current_position = 'short'`. -/
def openEndedRunFrame : Frame :=
  [(("portfolio_value"), [Cell.num 10, Cell.num 30, Cell.num 25]),
   (("ewma"), [Cell.num 10, Cell.num 10, Cell.num 10]),
   (("bollinger_upper"), [Cell.blank, Cell.num 20, Cell.num 100]),
   (("bollinger_lower"), [Cell.blank, Cell.blank, Cell.blank])]

/-- C4 is right about the intent but the code is wrong: the guard
`current_position == 'Open'` (line 352) compares against a value the
state machine never takes (`None`/`'short'`/`'long'`), so the
"Position still open" warning can never fire, and the returned pair
`(trade_logs, trades_tally)` carries no flag either.  On the concrete
open-ended run the final position is `'short'` (open) - the final
`'neither'` snapshot does carry the unrealized PnL
`1000 + 1000·(30-25)/30 = 3500/3` - yet the flag stays `false`. -/
theorem open_position_flag_never_surfaced :
    (∀ (df : Frame) (init : ℚ), (track_trades df init).stillOpenWarned = false) ∧
    (track_trades openEndedRunFrame 1000).finalPos = some ("short") ∧
    (track_trades openEndedRunFrame 1000).logs.getLast?
      = some ⟨2, 25, ("neither"), 3500/3⟩ := by
  refine ⟨?_, ?_, ?_⟩
  · intro df init
    cases hpv : colNum df ("portfolio_value") with
    | nil => simp [track_trades, hpv]
    | cons p0 tl =>
      simp only [track_trades, hpv]
      have h := trackGo_pos ((trackRows df).drop 1) 1 ⟨none, 0, 0, init, 0, init⟩ (by simp)
      simpa using h
  · norm_num [track_trades, openEndedRunFrame, colNum, colOpt, trackRows, trackGo, tradeStep,
      numAt, optAt, gtOptB, ltOptB]
    simp
  · norm_num [track_trades, openEndedRunFrame, colNum, colOpt, trackRows, trackGo, tradeStep,
      numAt, optAt, gtOptB, ltOptB]
    simp
